import Mathlib

/-!
Verification of the MNACloudComputing array-summation programs.

The repository holds two C++ programs:

* `main.cpp`: fills two arrays `A`, `B` of size `N = 1000` with random values
  in `[1, 1000]`, computes `C_seq[i] = A[i] + B[i]` sequentially, computes
  `C_par[i] = A[i] + B[i]` with an OpenMP `parallel for`
  (`schedule(static, chunk)` with `chunk = 100`), prints the first
  `mostrar = 10` elements of `A`, `B` and `C_par`, verifies `C_seq == C_par`
  element-wise (reporting the first mismatch and then `OK`/`FALLO`), prints
  two timing lines with `setprecision(4)`, and returns 0.

* `SolucionSumaArreglosParalela_Oliver_Viveros.cpp`: the same computation
  with `std::vector<int>` of size `n = 10`; it prints all `n` elements of
  `A`, `B` and the parallel result plus the two timing lines and returns 0.
  It performs no verification and prints no status line.

Arrays are embedded as `List Int` (C `int` reads/writes are exact here: all
values involved fit well inside 32 bits, which claim C9 makes precise).
In-bounds reads are embedded with `List.getD` (total) and, in the checked
development for claim C10, with `List.getElem?`; writes with `List.set`.
The OpenMP parallel loop writes `C_par[i]` for each `i` in `[0, N)` exactly
once, each write depending only on the immutable `A`, `B` and on `i`; any
interleaving of the chunked loop bodies is therefore some order of these
`N` independent writes.  The embedding makes the order explicit: a schedule
is a list of indices, and the parallel pass executes the loop body along
the schedule.  Wall-clock timing values are not modelled; a timing output
line records only its label and the configured output precision.
-/

namespace SumaArreglos

/-- `#define N 1000` in `main.cpp`: the array size. -/
def N : Nat := 1000

/-- `#define chunk 100` in `main.cpp`: the `schedule(static, chunk)` block size. -/
def chunk : Nat := 100

/-- `#define mostrar 10` in `main.cpp`: how many elements `imprimeArreglo` prints. -/
def mostrar : Nat := 10

/-- The body of both summation loops: the value `A[i] + B[i]` stored into the
result array at index `i` (`main.cpp` lines 69 and 90, and lines 56 and 70 of
the `Solucion` variant). -/
def suma (A B : List Int) (i : Nat) : Int :=
  A.getD i 0 + B.getD i 0

/-- Execute the summation loop body `C[i] = A[i] + B[i]` once for each index
in the list `L`, in order, starting from the result array `C`.  The
sequential pass is this with `L = [0, ..., n)`; a parallel execution is this
with `L` the order in which the interleaved workers performed their writes. -/
def escribeSuma (A B : List Int) (L : List Nat) (C : List Int) : List Int :=
  L.foldl (fun acc i => acc.set i (suma A B i)) C

/-- The sequential summation pass of `main.cpp` lines 68-70 (and `Solucion`
lines 55-57): `for (i = 0; i < n; i++) C_seq[i] = A[i] + B[i];`. -/
def sumaSecuencial (n : Nat) (A B C : List Int) : List Int :=
  escribeSuma A B (List.range n) C

/-- The parallel summation pass with an explicit chunking: each chunk (a list
of indices handed to one worker) is processed by the loop body, chunks in the
given order.  `schedule(static, pedazos)` in `main.cpp` line 87 corresponds
to contiguous chunks of `pedazos` indices. -/
def sumaParalela (A B : List Int) (chunks : List (List Nat)) (C : List Int) : List Int :=
  chunks.foldl (fun acc ch => escribeSuma A B ch acc) C

/-- The verification loop of `main.cpp` lines 106-116, from index `i` with
`fuel` iterations left: on the first index whose two values differ it stops
(the `break`) and returns that index with both values; if it exhausts the
range it returns `none` (`correcto` stays `true`). -/
def verificaDesde (Cseq Cpar : List Int) (i : Nat) : Nat → Option (Nat × Int × Int)
  | 0 => none
  | fuel + 1 =>
    if Cseq.getD i 0 ≠ Cpar.getD i 0 then some (i, Cseq.getD i 0, Cpar.getD i 0)
    else verificaDesde Cseq Cpar (i + 1) fuel

/-- The whole verification loop over `[0, n)`. -/
def verifica (Cseq Cpar : List Int) (n : Nat) : Option (Nat × Int × Int) :=
  verificaDesde Cseq Cpar 0 n

/-- The indices the verification loop examines (compares), in order: it is
cut short at the first mismatch by the `break`. -/
def verificaTrazaDesde (Cseq Cpar : List Int) (i : Nat) : Nat → List Nat
  | 0 => []
  | fuel + 1 =>
    if Cseq.getD i 0 ≠ Cpar.getD i 0 then [i]
    else i :: verificaTrazaDesde Cseq Cpar (i + 1) fuel

/-- The examined indices of the whole loop over `[0, n)`. -/
def verificaTraza (Cseq Cpar : List Int) (n : Nat) : List Nat :=
  verificaTrazaDesde Cseq Cpar 0 n

/-- The status printed by `main.cpp` line 118:
`(correcto ? "OK" : "FALLO")`, where `correcto` is true exactly when the
loop found no mismatch. -/
def estadoVerificacion (Cseq Cpar : List Int) (n : Nat) : String :=
  if (verifica Cseq Cpar n).isNone then "OK" else "FALLO"

/-- One line of standard output.  Wall-clock timing values are outside the
embedding: a timing line records only its label and the stream precision
(`setprecision`) in effect when it is printed. -/
inductive Linea where
  | titulo (s : String)
  | arreglo (nombre : String) (vals : List Int)
  | errorReporte (i : Nat) (vseq vpar : Int)
  | estado (s : String)
  | tiempo (nombre : String) (precision : Nat)
deriving DecidableEq

/-- A finished run: the standard output, in order, and the process exit
code. -/
structure Resultado where
  output : List Linea
  exitCode : Nat
deriving DecidableEq

/-- `imprimeArreglo` of `main.cpp` lines 135-141: prints the values
`d[0], ..., d[mostrar - 1]` of the array under its label. -/
def imprimeArreglo (d : List Int) (nombre : String) : Linea :=
  Linea.arreglo nombre ((List.range mostrar).map (fun x => d.getD x 0))

/-- The output of `main.cpp` lines 106-118: the minimal report of the first
mismatch (printed inside the loop, just before the `break`) when there is
one, followed by the status line. -/
def lineasVerificacion (Cseq Cpar : List Int) : List Linea :=
  (match verifica Cseq Cpar N with
   | some (j, v, w) => [Linea.errorReporte j v w]
   | none => []) ++ [Linea.estado (estadoVerificacion Cseq Cpar N)]

/-- `main.cpp` lines 106-129 as a function of the two result arrays: the
verification output, then the two timing lines under `setprecision(4)`
(lines 125-127), then the value returned by `main` (line 129). -/
def verificaYReporta (Cseq Cpar : List Int) : List Linea × Nat :=
  (lineasVerificacion Cseq Cpar
    ++ [Linea.tiempo "Tiempo secuencial (ms)" 4, Linea.tiempo "Tiempo paralelo   (ms)" 4], 0)

/-- The whole of `main.cpp` as a function of the generated inputs `A`, `B`
and of the order `sched` in which the OpenMP workers performed the `N`
independent writes of the parallel loop.  `C_seq` and `C_par` start
zero-filled (lines 57-58); the sequential pass, the parallel pass, the three
previews, the verification, the timing lines and `return 0` follow in
program order. -/
def mainCpp (A B : List Int) (sched : List Nat) : Resultado :=
  let Cseq := sumaSecuencial N A B (List.replicate N 0)
  let Cpar := escribeSuma A B sched (List.replicate N 0)
  { output :=
      Linea.titulo "Sumando Arreglos en Paralelo (OpenMP)"
        :: imprimeArreglo A "A"
        :: imprimeArreglo B "B"
        :: imprimeArreglo Cpar "C (paralelo)"
        :: (verificaYReporta Cseq Cpar).1,
    exitCode := (verificaYReporta Cseq Cpar).2 }

end SumaArreglos

namespace SumaArreglos.Solucion

/-- `const int n = 10` of the `Solucion` variant (line 26). -/
def n : Nat := 10

/-- The whole of `SolucionSumaArreglosParalela_Oliver_Viveros.cpp` as a
function of the generated inputs and of the parallel write order: both
passes run (`R` is computed but never printed or compared), `A`, `B` and
`Rpar` are printed in full (each loop runs to `n`), the two timing lines
print under `setprecision(4)`, and `main` returns 0.  The source contains
no comparison of `R` with `Rpar` and prints no status line. -/
def mainSolucion (A B : List Int) (sched : List Nat) : Resultado :=
  let R := sumaSecuencial n A B (List.replicate n 0)
  let Rpar := escribeSuma A B sched (List.replicate n 0)
  { output :=
      [Linea.arreglo "Arreglo A" ((List.range n).map (fun i => A.getD i 0)),
       Linea.arreglo "Arreglo B" ((List.range n).map (fun i => B.getD i 0)),
       Linea.arreglo "Arreglo Resultado (Paralelo)"
         ((List.range n).map (fun i => Rpar.getD i 0)),
       Linea.tiempo "Tiempo secuencial (ms)" 4,
       Linea.tiempo "Tiempo paralelo   (ms)" 4],
    exitCode := 0 }

end SumaArreglos.Solucion

namespace SumaArreglos

/-- Whether an output line is a verification status line. -/
def Linea.esEstado : Linea → Bool
  | Linea.estado _ => true
  | _ => false

/-- Whether some line of an output is a verification status line. -/
def tieneEstado (ls : List Linea) : Bool :=
  ls.any (fun l => l.esEstado)

/-- `std::uniform_int_distribution<int> dist(lo, hi)` of `main.cpp` line 51
and `Solucion` line 38, modelled by its C++ standard contract (its
implementation is library code outside the repository): one call maps one
draw `r` of the underlying generator to a value of the closed range
`[lo, hi]`, here as `lo + (r mod (hi - lo + 1))`. -/
def dist (lo hi : Nat) (r : Nat) : Int :=
  (lo : Int) + ((r % (hi - lo + 1) : Nat) : Int)

/-- The generation loop (`main.cpp` lines 53-59, `Solucion` lines 40-43):
`A[i] = dist(gen); B[i] = dist(gen);` for `i` in `[0, n)`.  The
pseudo-random generator is modelled as a stream `g` of draws consumed in
call order: `A[i]` consumes draw `2*i` and `B[i]` draw `2*i + 1`. -/
def generaArreglos (n : Nat) (g : Nat → Nat) : List Int × List Int :=
  ((List.range n).map (fun i => dist 1 1000 (g (2 * i))),
   (List.range n).map (fun i => dist 1 1000 (g (2 * i + 1))))

/-- The mutable store of `main`: the four arrays (`A`, `B`, `C_seq`, `C_par`
of `main.cpp`; `A`, `B`, `R`, `Rpar` of the `Solucion` variant). -/
structure Estado where
  A : List Int
  B : List Int
  Cseq : List Int
  Cpar : List Int
deriving DecidableEq

/-- One iteration of the sequential summation loop as a store update: the
statement `C_seq[i] = A[i] + B[i];` writes only `C_seq[i]`. -/
def pasoSeq (s : Estado) (i : Nat) : Estado :=
  { s with Cseq := s.Cseq.set i (suma s.A s.B i) }

/-- The sequential pass over the store. -/
def faseSeq (n : Nat) (s : Estado) : Estado :=
  (List.range n).foldl pasoSeq s

/-- One iteration of the parallel summation loop as a store update: the
statement `C_par[i] = A[i] + B[i];` writes only `C_par[i]`. -/
def pasoPar (s : Estado) (i : Nat) : Estado :=
  { s with Cpar := s.Cpar.set i (suma s.A s.B i) }

/-- A parallel execution over the store: the loop body runs once per index
of the schedule, in schedule order. -/
def fasePar (sched : List Nat) (s : Estado) : Estado :=
  sched.foldl pasoPar s

/-- Checked array write `C[i] = v`: out of bounds is undefined behaviour in
the C++ source, embedded as failure. -/
def escribir? (C : List Int) (i : Nat) (v : Int) : Option (List Int) :=
  if i < C.length then some (C.set i v) else none

/-- The summation loop with checked reads and writes. -/
def escribeSuma? (A B : List Int) : List Nat → List Int → Option (List Int)
  | [], C => some C
  | i :: rest, C => do
    let a ← A[i]?
    let b ← B[i]?
    let C2 ← escribir? C i (a + b)
    escribeSuma? A B rest C2

/-- The verification loop with checked reads. -/
def verificaDesde? (Cseq Cpar : List Int) (i : Nat) : Nat → Option (Option (Nat × Int × Int))
  | 0 => some none
  | fuel + 1 => do
    let x ← Cseq[i]?
    let y ← Cpar[i]?
    if x ≠ y then some (some (i, x, y)) else verificaDesde? Cseq Cpar (i + 1) fuel

/-- `imprimeArreglo` with checked reads of `d[0], ..., d[mostrar - 1]`. -/
def imprimeArreglo? (d : List Int) (nombre : String) : Option Linea := do
  let vals ← (List.range mostrar).mapM (fun x => d[x]?)
  some (Linea.arreglo nombre vals)

/-!  Helper lemmas about the embedding. -/

/-- Splitting the chunked pass: running the chunks one after another is
running the concatenation of the chunks. -/
theorem sumaParalela_eq_escribeSuma (A B : List Int) (chunks : List (List Nat))
    (C : List Int) : sumaParalela A B chunks C = escribeSuma A B chunks.flatten C := by
  induction chunks generalizing C with
  | nil => rfl
  | cons ch rest ih =>
    have hstep : sumaParalela A B (ch :: rest) C
        = sumaParalela A B rest (escribeSuma A B ch C) := rfl
    rw [hstep, ih, List.flatten_cons]
    simp only [escribeSuma, List.foldl_append]

/-- `escribeSuma` never changes the length of the result array. -/
theorem escribeSuma_length (A B : List Int) (L : List Nat) (C : List Int) :
    (escribeSuma A B L C).length = C.length := by
  induction L generalizing C with
  | nil => rfl
  | cons i rest ih => simp [escribeSuma, List.foldl_cons] at *; rw [ih, List.length_set]

/-- Characterisation of one pass over an index list: position `j` of the
result holds `A[j] + B[j]` when `j` was visited (and is in range), and is
untouched otherwise.  The written value depends only on `j` and the immutable
inputs, never on the visit order. -/
theorem escribeSuma_getElem? (A B : List Int) (L : List Nat) (C : List Int) (j : Nat) :
    (escribeSuma A B L C)[j]? =
      if j ∈ L ∧ j < C.length then some (suma A B j) else C[j]? := by
  induction L generalizing C with
  | nil => simp [escribeSuma]
  | cons i rest ih =>
    have hstep : escribeSuma A B (i :: rest) C
        = escribeSuma A B rest (C.set i (suma A B i)) := rfl
    rw [hstep, ih, List.length_set]
    by_cases hjr : j ∈ rest ∧ j < C.length
    · rw [if_pos hjr, if_pos ⟨List.mem_cons_of_mem i hjr.1, hjr.2⟩]
    · rw [if_neg hjr, List.getElem?_set]
      by_cases hij : i = j
      · subst hij
        by_cases hlen : i < C.length
        · rw [if_pos rfl, if_pos hlen, if_pos ⟨List.mem_cons_self i rest, hlen⟩]
        · rw [if_pos rfl, if_neg hlen, if_neg (fun h => hlen h.2),
              List.getElem?_eq_none (Nat.le_of_not_lt hlen)]
      · rw [if_neg hij]
        have hnc : ¬ (j ∈ i :: rest ∧ j < C.length) := by
          intro h
          rcases List.mem_cons.mp h.1 with h1 | h1
          · exact hij h1.symm
          · exact hjr ⟨h1, h.2⟩
        rw [if_neg hnc]

/-- Any execution order that visits exactly the indices of `[0, n)` (any
permutation, hence any chunked, reordered or interleaved schedule) yields
the very array the sequential pass yields. -/
theorem escribeSuma_perm_range (A B C : List Int) (n : Nat) (sched : List Nat)
    (hs : sched.Perm (List.range n)) :
    escribeSuma A B sched C = sumaSecuencial n A B C := by
  apply List.ext_getElem?
  intro j
  rw [escribeSuma_getElem?, sumaSecuencial, escribeSuma_getElem?]
  by_cases hj : j ∈ List.range n ∧ j < C.length
  · rw [if_pos ⟨hs.mem_iff.mpr hj.1, hj.2⟩, if_pos hj]
  · rw [if_neg (fun h => hj ⟨hs.mem_iff.mp h.1, h.2⟩), if_neg hj]

/-- The loop finds no mismatch iff all the examined positions agree. -/
theorem verificaDesde_eq_none_iff (Cseq Cpar : List Int) (fuel i : Nat) :
    verificaDesde Cseq Cpar i fuel = none ↔
      ∀ k, i ≤ k → k < i + fuel → Cseq.getD k 0 = Cpar.getD k 0 := by
  induction fuel generalizing i with
  | zero =>
    constructor
    · intro _ k h1 h2
      exact absurd h2 (by omega)
    · intro _
      rfl
  | succ fuel ih =>
    by_cases hne : Cseq.getD i 0 ≠ Cpar.getD i 0
    · simp only [verificaDesde, if_pos hne]
      constructor
      · intro h
        exact absurd h (by simp)
      · intro hall
        exact absurd (hall i (Nat.le_refl i) (by omega)) hne
    · simp only [verificaDesde, if_neg hne]
      push_neg at hne
      rw [ih]
      constructor
      · intro h k h1 h2
        rcases Nat.eq_or_lt_of_le h1 with h3 | h3
        · rw [← h3]
          exact hne
        · exact h k h3 (by omega)
      · intro h k h1 h2
        exact h k (by omega) (by omega)

/-- When the loop finds no mismatch it has examined every index of its range. -/
theorem verificaTrazaDesde_none (Cseq Cpar : List Int) (fuel i : Nat)
    (h : verificaDesde Cseq Cpar i fuel = none) :
    verificaTrazaDesde Cseq Cpar i fuel = List.range' i fuel := by
  induction fuel generalizing i with
  | zero => rfl
  | succ fuel ih =>
    by_cases hne : Cseq.getD i 0 ≠ Cpar.getD i 0
    · simp only [verificaDesde, if_pos hne] at h
      exact absurd h (by simp)
    · simp only [verificaDesde, if_neg hne] at h
      simp only [verificaTrazaDesde, if_neg hne]
      rw [ih _ h]
      simp [List.range']

/-- When the loop reports `(j, v, w)`: `j` is in range, `v` and `w` are the
two stored values and they differ, every earlier examined index agrees, and
the loop examined exactly the indices `i, ..., j` (it short-circuits). -/
theorem verificaDesde_eq_some (Cseq Cpar : List Int) (fuel i j : Nat) (v w : Int)
    (h : verificaDesde Cseq Cpar i fuel = some (j, v, w)) :
    i ≤ j ∧ j < i + fuel ∧ v = Cseq.getD j 0 ∧ w = Cpar.getD j 0 ∧ v ≠ w
    ∧ (∀ k, i ≤ k → k < j → Cseq.getD k 0 = Cpar.getD k 0)
    ∧ verificaTrazaDesde Cseq Cpar i fuel = List.range' i (j - i + 1) := by
  induction fuel generalizing i with
  | zero => exact absurd h (by simp [verificaDesde])
  | succ fuel ih =>
    by_cases hne : Cseq.getD i 0 ≠ Cpar.getD i 0
    · simp only [verificaDesde, if_pos hne, Option.some.injEq, Prod.mk.injEq] at h
      obtain ⟨rfl, rfl, rfl⟩ := h
      refine ⟨Nat.le_refl _, by omega, rfl, rfl, hne, ?_, ?_⟩
      · intro k h1 h2
        exact absurd h2 (by omega)
      · simp only [verificaTrazaDesde, if_pos hne, Nat.sub_self]
        simp [List.range']
    · simp only [verificaDesde, if_neg hne] at h
      obtain ⟨h1, h2, h3, h4, h5, h6, h7⟩ := ih (i + 1) h
      have heq : Cseq.getD i 0 = Cpar.getD i 0 := not_not.mp hne
      refine ⟨by omega, by omega, h3, h4, h5, ?_, ?_⟩
      · intro k hk1 hk2
        rcases Nat.eq_or_lt_of_le hk1 with hk3 | hk3
        · rw [← hk3]
          exact heq
        · exact h6 k hk3 hk2
      · simp only [verificaTrazaDesde, if_neg hne]
        rw [h7]
        have hj : j - i + 1 = (j - (i + 1) + 1) + 1 := by omega
        rw [hj]
        simp [List.range']

/-- The distribution of `main.cpp` line 51 always lands in the closed range
`[1, 1000]`. -/
theorem dist_uno_mil_mem (r : Nat) : 1 ≤ dist 1 1000 r ∧ dist 1 1000 r ≤ 1000 := by
  have h : r % 1000 < 1000 := Nat.mod_lt r (by omega)
  simp only [dist]
  omega

/-- Reading a mapped range at an in-range position. -/
theorem getD_map_range (f : Nat → Int) (n i : Nat) (hi : i < n) :
    ((List.range n).map f).getD i 0 = f i := by
  have hlen : i < ((List.range n).map f).length := by simp [hi]
  rw [List.getD_eq_getElem _ _ hlen]
  simp

/-- Printing positions `0, ..., k-1` of an array of length at least `k`
prints exactly its first `k` elements. -/
theorem map_range_getD_eq_take (d : List Int) (k : Nat) (hk : k ≤ d.length) :
    (List.range k).map (fun x => d.getD x 0) = d.take k := by
  apply List.ext_getElem
  · simp [Nat.min_eq_left hk]
  · intro i h1 h2
    simp only [List.getElem_map, List.getElem_range, List.getElem_take]
    rw [List.getD_eq_getElem]

/-- Reading the sequential result at an in-range position. -/
theorem sumaSecuencial_getD (A B C0 : List Int) (n i : Nat)
    (hC : C0.length = n) (hi : i < n) :
    (sumaSecuencial n A B C0).getD i 0 = A.getD i 0 + B.getD i 0 := by
  rw [List.getD_eq_getElem?_getD, sumaSecuencial, escribeSuma_getElem?,
      if_pos ⟨List.mem_range.mpr hi, hC ▸ hi⟩]
  rfl

/-- The sequential loop writes only `C_seq`: it leaves `A`, `B` and `C_par`
of the store exactly as they were, and its effect on `C_seq` is the pure
pass. -/
theorem foldl_pasoSeq_frame (L : List Nat) (s : Estado) :
    (L.foldl pasoSeq s).A = s.A ∧ (L.foldl pasoSeq s).B = s.B
    ∧ (L.foldl pasoSeq s).Cpar = s.Cpar
    ∧ (L.foldl pasoSeq s).Cseq = escribeSuma s.A s.B L s.Cseq := by
  induction L generalizing s with
  | nil => exact ⟨rfl, rfl, rfl, rfl⟩
  | cons i rest ih =>
    obtain ⟨h1, h2, h3, h4⟩ := ih (pasoSeq s i)
    exact ⟨h1, h2, h3, h4⟩

/-- The parallel loop writes only `C_par`: it leaves `A`, `B` and `C_seq`
of the store exactly as they were, and its effect on `C_par` is the pure
pass along the schedule. -/
theorem foldl_pasoPar_frame (L : List Nat) (s : Estado) :
    (L.foldl pasoPar s).A = s.A ∧ (L.foldl pasoPar s).B = s.B
    ∧ (L.foldl pasoPar s).Cseq = s.Cseq
    ∧ (L.foldl pasoPar s).Cpar = escribeSuma s.A s.B L s.Cpar := by
  induction L generalizing s with
  | nil => exact ⟨rfl, rfl, rfl, rfl⟩
  | cons i rest ih =>
    obtain ⟨h1, h2, h3, h4⟩ := ih (pasoPar s i)
    exact ⟨h1, h2, h3, h4⟩

/-- When every visited index is within the bounds of `A`, `B` and `C`, the
checked summation loop succeeds and computes the unchecked pass. -/
theorem escribeSuma?_eq_some (A B : List Int) (L : List Nat) (C : List Int)
    (h : ∀ i ∈ L, i < A.length ∧ i < B.length ∧ i < C.length) :
    escribeSuma? A B L C = some (escribeSuma A B L C) := by
  induction L generalizing C with
  | nil => rfl
  | cons i rest ih =>
    obtain ⟨hA, hB, hC⟩ := h i (List.mem_cons_self i rest)
    have hsuma : suma A B i = A[i] + B[i] := by
      rw [suma, List.getD_eq_getElem A 0 hA, List.getD_eq_getElem B 0 hB]
    have hbody : escribeSuma? A B (i :: rest) C
        = escribeSuma? A B rest (C.set i (suma A B i)) := by
      simp only [escribeSuma?, List.getElem?_eq_getElem hA, List.getElem?_eq_getElem hB,
        escribir?, if_pos hC, Option.bind_eq_bind, Option.some_bind, hsuma]
    have hrest : ∀ j ∈ rest, j < A.length ∧ j < B.length
        ∧ j < (C.set i (suma A B i)).length := by
      intro j hj
      obtain ⟨g1, g2, g3⟩ := h j (List.mem_cons_of_mem i hj)
      exact ⟨g1, g2, by rwa [List.length_set]⟩
    rw [hbody, ih _ hrest]
    rfl

/-- When every examined index is within the bounds of both result arrays,
the checked verification loop succeeds and computes the unchecked loop. -/
theorem verificaDesde?_eq_some (Cseq Cpar : List Int) (fuel i : Nat)
    (h : ∀ k, i ≤ k → k < i + fuel → k < Cseq.length ∧ k < Cpar.length) :
    verificaDesde? Cseq Cpar i fuel = some (verificaDesde Cseq Cpar i fuel) := by
  induction fuel generalizing i with
  | zero => rfl
  | succ fuel ih =>
    obtain ⟨h1, h2⟩ := h i (Nat.le_refl i) (by omega)
    have d1 : Cseq.getD i 0 = Cseq[i] := List.getD_eq_getElem Cseq 0 h1
    have d2 : Cpar.getD i 0 = Cpar[i] := List.getD_eq_getElem Cpar 0 h2
    by_cases hne : Cseq[i] ≠ Cpar[i]
    · simp only [verificaDesde?, List.getElem?_eq_getElem h1, List.getElem?_eq_getElem h2,
        Option.bind_eq_bind, Option.some_bind, if_pos hne]
      simp only [verificaDesde, d1, d2, if_pos hne]
    · simp only [verificaDesde?, List.getElem?_eq_getElem h1, List.getElem?_eq_getElem h2,
        Option.bind_eq_bind, Option.some_bind, if_neg hne]
      simp only [verificaDesde, d1, d2, if_neg hne]
      exact ih (i + 1) (fun k hk1 hk2 => h k (by omega) (by omega))

/-- Checked reads along a list of in-range positions succeed and return the
values the total embedding reads. -/
theorem mapM_getElem?_of_lt (d : List Int) (L : List Nat)
    (h : ∀ x ∈ L, x < d.length) :
    L.mapM (fun x => d[x]?) = some (L.map (fun x => d.getD x 0)) := by
  induction L with
  | nil => rfl
  | cons x rest ih =>
    have hx := h x (List.mem_cons_self x rest)
    rw [List.mapM_cons, List.getElem?_eq_getElem hx,
      ih (fun y hy => h y (List.mem_cons_of_mem x hy))]
    simp [List.getD_eq_getElem?_getD, List.getElem?_eq_getElem hx]

end SumaArreglos

namespace SumaArreglos

/-- Claim C1: for every pair of input arrays `A`, `B`, the parallel summation
pass produces a result identical to the sequential pass at every index, and
this holds for any partitioning of the index range `[0, n)` into chunks
(`hcover`: the chunks jointly visit each index of `[0, n)` exactly once) and
for any interleaving `sched` of the chunked iterations that the workers may
produce (`hsched`). -/
theorem C1_paralelo_igual_secuencial (A B C0 : List Int) (n : Nat)
    (chunks : List (List Nat)) (sched : List Nat)
    (hcover : chunks.flatten.Perm (List.range n))
    (hsched : sched.Perm chunks.flatten) :
    sumaParalela A B chunks C0 = sumaSecuencial n A B C0
    ∧ escribeSuma A B sched C0 = sumaSecuencial n A B C0
    ∧ ∀ i, i < n → (escribeSuma A B sched C0)[i]? = (sumaSecuencial n A B C0)[i]? := by
  have h1 : sumaParalela A B chunks C0 = sumaSecuencial n A B C0 := by
    rw [sumaParalela_eq_escribeSuma]
    exact escribeSuma_perm_range A B C0 n _ hcover
  have h2 := escribeSuma_perm_range A B C0 n sched (hsched.trans hcover)
  exact ⟨h1, h2, fun i _ => by rw [h2]⟩

/-- Concrete instance of claim C1: chunks of size 2 over `n = 4`, executed
out of order and with an interleaved write order. -/
theorem C1_paralelo_igual_secuencial_witness :
    sumaParalela [1, 2, 3, 4] [5, 6, 7, 8] [[2, 3], [0, 1]] [0, 0, 0, 0]
      = sumaSecuencial 4 [1, 2, 3, 4] [5, 6, 7, 8] [0, 0, 0, 0] :=
  (C1_paralelo_igual_secuencial [1, 2, 3, 4] [5, 6, 7, 8] [0, 0, 0, 0] 4
    [[2, 3], [0, 1]] [2, 0, 3, 1] (by decide) (by decide)).1

/-- Claim C2: the sequential pass returns an array of length `n` whose entry
at each `i < n` is exactly `A[i] + B[i]`, and the result is a deterministic
function of `A` and `B`: a second run on arrays equal to `A` and `B` yields
an equal result. -/
theorem C2_secuencial_correcta (A B C0 A2 B2 : List Int) (n i : Nat) (a b : Int)
    (hC : C0.length = n) (hi : i < n)
    (ha : A[i]? = some a) (hb : B[i]? = some b)
    (hA : A2 = A) (hB : B2 = B) :
    (sumaSecuencial n A B C0).length = n
    ∧ (sumaSecuencial n A B C0)[i]? = some (a + b)
    ∧ sumaSecuencial n A2 B2 C0 = sumaSecuencial n A B C0 := by
  refine ⟨?_, ?_, ?_⟩
  · rw [sumaSecuencial, escribeSuma_length, hC]
  · rw [sumaSecuencial, escribeSuma_getElem?,
      if_pos ⟨List.mem_range.mpr hi, hC ▸ hi⟩, suma,
      List.getD_eq_getElem?_getD, List.getD_eq_getElem?_getD, ha, hb]
    rfl
  · rw [hA, hB]

/-- Concrete instance of claim C2 at `n = 2`, `i = 1`. -/
theorem C2_secuencial_correcta_witness :
    (sumaSecuencial 2 [3, 4] [10, 20] [0, 0]).length = 2
    ∧ (sumaSecuencial 2 [3, 4] [10, 20] [0, 0])[1]? = some ((4 : Int) + 20)
    ∧ sumaSecuencial 2 [3, 4] [10, 20] [0, 0] = sumaSecuencial 2 [3, 4] [10, 20] [0, 0] :=
  C2_secuencial_correcta [3, 4] [10, 20] [0, 0] [3, 4] [10, 20] 2 1 4 20
    rfl (by decide) rfl rfl rfl rfl

/-- Claim C3: the verifier compares `R_seq` and `R_par` element-wise in index
order.  It returns `none` (and the status line says "OK") exactly when all
`n` positions agree; when some position differs it reports the first
mismatching index `j` together with both stored values, examines exactly the
indices `0, ..., j` (short-circuiting: no later index is examined), and the
status line says "FALLO". -/
theorem C3_verificador (Cseq Cpar : List Int) (n : Nat) :
    (verifica Cseq Cpar n = none ↔ ∀ i, i < n → Cseq.getD i 0 = Cpar.getD i 0)
    ∧ (verifica Cseq Cpar n = none → verificaTraza Cseq Cpar n = List.range n)
    ∧ (∀ j v w, verifica Cseq Cpar n = some (j, v, w) →
        j < n ∧ v = Cseq.getD j 0 ∧ w = Cpar.getD j 0 ∧ v ≠ w
        ∧ (∀ k, k < j → Cseq.getD k 0 = Cpar.getD k 0)
        ∧ verificaTraza Cseq Cpar n = List.range (j + 1))
    ∧ (estadoVerificacion Cseq Cpar n = "OK"
        ↔ ∀ i, i < n → Cseq.getD i 0 = Cpar.getD i 0)
    ∧ (estadoVerificacion Cseq Cpar n = "OK"
        ∨ estadoVerificacion Cseq Cpar n = "FALLO") := by
  have hnone : verifica Cseq Cpar n = none
      ↔ ∀ i, i < n → Cseq.getD i 0 = Cpar.getD i 0 := by
    rw [verifica, verificaDesde_eq_none_iff]
    constructor
    · intro h i hi
      exact h i (Nat.zero_le i) (by omega)
    · intro h k _ hk
      exact h k (by omega)
  refine ⟨hnone, ?_, ?_, ?_, ?_⟩
  · intro h
    rw [verificaTraza, verificaTrazaDesde_none Cseq Cpar n 0 h, List.range_eq_range']
  · intro j v w h
    obtain ⟨_, h2, h3, h4, h5, h6, h7⟩ := verificaDesde_eq_some Cseq Cpar n 0 j v w h
    refine ⟨by omega, h3, h4, h5, fun k hk => h6 k (Nat.zero_le k) hk, ?_⟩
    rw [verificaTraza, h7, Nat.sub_zero, List.range_eq_range']
  · rw [estadoVerificacion]
    by_cases h : (verifica Cseq Cpar n).isNone
    · rw [if_pos h]
      simp only [Option.isNone_iff_eq_none] at h
      exact ⟨fun _ => hnone.mp h, fun _ => rfl⟩
    · rw [if_neg h]
      simp only [Option.isNone_iff_eq_none] at h
      constructor
      · intro hfo
        exact absurd hfo (by decide)
      · intro hall
        exact absurd (hnone.mpr hall) h
  · rw [estadoVerificacion]
    by_cases h : (verifica Cseq Cpar n).isNone
    · rw [if_pos h]
      exact Or.inl rfl
    · rw [if_neg h]
      exact Or.inr rfl

/-- Concrete instance of claim C3: a mismatch at index 1 makes the loop
examine exactly indices 0 and 1. -/
theorem C3_verificador_witness :
    verificaTraza [1, 2, 9] [1, 5, 9] 3 = List.range 2 :=
  ((C3_verificador [1, 2, 9] [1, 5, 9] 3).2.2.1 1 2 5 (by decide)).2.2.2.2.2

/-- Claim C4: a verification mismatch is reported on standard output but
aborts nothing and leaves the exit code untouched: for every pair of result
arrays (agreeing or not) the segment of `main.cpp` from the verification on
still prints the two timing lines after the verification output and returns
0, and both program variants always finish with exit code 0. -/
theorem C4_codigo_salida_cero (Cseq Cpar A B : List Int) (sched : List Nat) :
    (verificaYReporta Cseq Cpar).2 = 0
    ∧ (verificaYReporta Cseq Cpar).1.drop (lineasVerificacion Cseq Cpar).length
        = [Linea.tiempo "Tiempo secuencial (ms)" 4, Linea.tiempo "Tiempo paralelo   (ms)" 4]
    ∧ (mainCpp A B sched).exitCode = 0
    ∧ (Solucion.mainSolucion A B sched).exitCode = 0 := by
  refine ⟨rfl, ?_, rfl, rfl⟩
  exact List.drop_left _ _

/-- Counterexample to claim C5: on a concrete input the `Solucion` variant's
output contains no verification status line at all — it never compares its
sequential and parallel results, so the claim that each of the two variants
verifies and prints a status line is false. -/
theorem C5_contraejemplo :
    tieneEstado (Solucion.mainSolucion (List.replicate 10 1) (List.replicate 10 2)
      (List.range 10)).output = false := by decide

/-- Claim C5 amended: `main.cpp` verifies that the sequential and parallel
results agree and always prints a verification status line, which says "OK"
for every complete parallel schedule; the `Solucion` variant computes both
results but performs no verification and prints no status line. -/
theorem C5_estado_por_variante (A B : List Int) (sched : List Nat)
    (hs : sched.Perm (List.range N)) :
    tieneEstado (mainCpp A B sched).output = true
    ∧ Linea.estado "OK" ∈ (mainCpp A B sched).output
    ∧ tieneEstado (Solucion.mainSolucion A B sched).output = false := by
  have hpar : escribeSuma A B sched (List.replicate N 0)
      = sumaSecuencial N A B (List.replicate N 0) :=
    escribeSuma_perm_range A B (List.replicate N 0) N sched hs
  have hver : verifica (sumaSecuencial N A B (List.replicate N 0))
      (sumaSecuencial N A B (List.replicate N 0)) N = none :=
    (verificaDesde_eq_none_iff _ _ N 0).mpr (fun k _ _ => rfl)
  have hest : estadoVerificacion (sumaSecuencial N A B (List.replicate N 0))
      (sumaSecuencial N A B (List.replicate N 0)) N = "OK" := by
    rw [estadoVerificacion, hver]
    rfl
  have hlineas : lineasVerificacion (sumaSecuencial N A B (List.replicate N 0))
      (sumaSecuencial N A B (List.replicate N 0)) = [Linea.estado "OK"] := by
    rw [lineasVerificacion, hver, hest]
    rfl
  refine ⟨?_, ?_, ?_⟩
  · simp [mainCpp, verificaYReporta, tieneEstado, hpar, hlineas, Linea.esEstado]
  · simp [mainCpp, verificaYReporta, hpar, hlineas]
  · simp [tieneEstado, Solucion.mainSolucion, Linea.esEstado]

/-- Concrete instance of the amended claim C5, at the identity schedule. -/
theorem C5_estado_por_variante_witness :
    tieneEstado (mainCpp [] [] (List.range N)).output = true
    ∧ Linea.estado "OK" ∈ (mainCpp [] [] (List.range N)).output
    ∧ tieneEstado (Solucion.mainSolucion [] [] (List.range N)).output = false :=
  C5_estado_por_variante [] [] (List.range N) (List.Perm.refl _)

/-- Claim C6: every value the random generator places in the input arrays
`A` and `B` lies in the inclusive range `[1, 1000]`, for every entropy
stream and every position. -/
theorem C6_valores_generados_en_rango (nv : Nat) (g : Nat → Nat) (i : Nat)
    (hi : i < nv) :
    (1 ≤ (generaArreglos nv g).1.getD i 0 ∧ (generaArreglos nv g).1.getD i 0 ≤ 1000)
    ∧ (1 ≤ (generaArreglos nv g).2.getD i 0 ∧ (generaArreglos nv g).2.getD i 0 ≤ 1000) := by
  have h1 : (generaArreglos nv g).1.getD i 0 = dist 1 1000 (g (2 * i)) :=
    getD_map_range _ nv i hi
  have h2 : (generaArreglos nv g).2.getD i 0 = dist 1 1000 (g (2 * i + 1)) :=
    getD_map_range _ nv i hi
  rw [h1, h2]
  exact ⟨dist_uno_mil_mem _, dist_uno_mil_mem _⟩

/-- Concrete instance of claim C6 at `nv = 1`, the zero entropy stream. -/
theorem C6_valores_generados_en_rango_witness :
    (1 ≤ (generaArreglos 1 (fun _ => 0)).1.getD 0 0
      ∧ (generaArreglos 1 (fun _ => 0)).1.getD 0 0 ≤ 1000)
    ∧ (1 ≤ (generaArreglos 1 (fun _ => 0)).2.getD 0 0
      ∧ (generaArreglos 1 (fun _ => 0)).2.getD 0 0 ≤ 1000) :=
  C6_valores_generados_en_rango 1 (fun _ => 0) 0 (by decide)

/-- Claim C7: `imprimeArreglo` prints a bounded first-`mostrar` view:
for an array with at least `mostrar` elements it prints exactly the first
`mostrar` elements; `mostrar = 10 ≤ 1000 = N`; `main.cpp`'s output contains
the previews of `A`, `B` and the parallel result and the two timing lines,
each timing line carrying the configured fixed precision 4. -/
theorem C7_reportero (A B d : List Int) (nombre : String) (sched : List Nat)
    (hd : mostrar ≤ d.length) :
    mostrar = 10 ∧ N = 1000 ∧ mostrar ≤ N
    ∧ imprimeArreglo d nombre = Linea.arreglo nombre (d.take mostrar)
    ∧ imprimeArreglo A "A" ∈ (mainCpp A B sched).output
    ∧ imprimeArreglo B "B" ∈ (mainCpp A B sched).output
    ∧ imprimeArreglo (escribeSuma A B sched (List.replicate N 0)) "C (paralelo)"
        ∈ (mainCpp A B sched).output
    ∧ Linea.tiempo "Tiempo secuencial (ms)" 4 ∈ (mainCpp A B sched).output
    ∧ Linea.tiempo "Tiempo paralelo   (ms)" 4 ∈ (mainCpp A B sched).output := by
  refine ⟨rfl, rfl, by decide, ?_, ?_, ?_, ?_, ?_, ?_⟩
  · rw [imprimeArreglo, map_range_getD_eq_take d mostrar hd]
  · simp [mainCpp, verificaYReporta]
  · simp [mainCpp, verificaYReporta]
  · simp [mainCpp, verificaYReporta]
  · simp [mainCpp, verificaYReporta]
  · simp [mainCpp, verificaYReporta]

/-- Concrete instance of claim C7: the printed view of a length-10 array is
its first `mostrar` elements. -/
theorem C7_reportero_witness :
    imprimeArreglo (List.replicate 10 0) "d"
      = Linea.arreglo "d" ((List.replicate 10 (0 : Int)).take mostrar) :=
  (C7_reportero [] [] (List.replicate 10 0) "d" [] (by decide)).2.2.2.1

/-- Claim C8: the input arrays are immutable after generation.  For every
store `s`, running the sequential pass and then any parallel execution
leaves `A` and `B` (and, per pass, the other result array) exactly as they
were; each pass writes only its own result array, whose final content is the
pure function of the untouched `A` and `B`. -/
theorem C8_entradas_inmutables (s : Estado) (nv : Nat) (sched : List Nat) :
    (faseSeq nv s).A = s.A ∧ (faseSeq nv s).B = s.B ∧ (faseSeq nv s).Cpar = s.Cpar
    ∧ (fasePar sched s).A = s.A ∧ (fasePar sched s).B = s.B
    ∧ (fasePar sched s).Cseq = s.Cseq
    ∧ (fasePar sched (faseSeq nv s)).A = s.A
    ∧ (fasePar sched (faseSeq nv s)).B = s.B
    ∧ (faseSeq nv s).Cseq = sumaSecuencial nv s.A s.B s.Cseq
    ∧ (fasePar sched (faseSeq nv s)).Cpar = escribeSuma s.A s.B sched s.Cpar := by
  obtain ⟨a1, a2, a3, a4⟩ := foldl_pasoSeq_frame (List.range nv) s
  obtain ⟨b1, b2, b3, b4⟩ := foldl_pasoPar_frame sched s
  obtain ⟨c1, c2, c3, c4⟩ := foldl_pasoPar_frame sched (faseSeq nv s)
  simp only [faseSeq, fasePar, sumaSecuencial] at *
  rw [a1, a2, a3] at c4
  exact ⟨a1, a2, a3, b1, b2, b3, c1.trans a1, c2.trans a2, a4, c4⟩

/-- Claim C9: with generated inputs, every entry of the sequential result
lies in `[2, 2000]`, the parallel result (under any complete schedule) is
the same array, and the values sit far inside the 32-bit signed window, so
no `int` addition in either pass overflows and the sums are exact. -/
theorem C9_resultados_en_rango (nv : Nat) (g : Nat → Nat) (i : Nat) (sched : List Nat)
    (hi : i < nv) (hs : sched.Perm (List.range nv)) :
    (2 ≤ (sumaSecuencial nv (generaArreglos nv g).1 (generaArreglos nv g).2
          (List.replicate nv 0)).getD i 0
      ∧ (sumaSecuencial nv (generaArreglos nv g).1 (generaArreglos nv g).2
          (List.replicate nv 0)).getD i 0 ≤ 2000)
    ∧ escribeSuma (generaArreglos nv g).1 (generaArreglos nv g).2 sched
        (List.replicate nv 0)
        = sumaSecuencial nv (generaArreglos nv g).1 (generaArreglos nv g).2
            (List.replicate nv 0)
    ∧ -((2 : Int) ^ 31) ≤ (sumaSecuencial nv (generaArreglos nv g).1
          (generaArreglos nv g).2 (List.replicate nv 0)).getD i 0
    ∧ (sumaSecuencial nv (generaArreglos nv g).1 (generaArreglos nv g).2
          (List.replicate nv 0)).getD i 0 < (2 : Int) ^ 31 := by
  have hlen : (List.replicate nv (0 : Int)).length = nv := by simp
  have hsum := sumaSecuencial_getD (generaArreglos nv g).1 (generaArreglos nv g).2
      (List.replicate nv 0) nv i hlen hi
  have hA : (generaArreglos nv g).1.getD i 0 = dist 1 1000 (g (2 * i)) :=
    getD_map_range _ nv i hi
  have hB : (generaArreglos nv g).2.getD i 0 = dist 1 1000 (g (2 * i + 1)) :=
    getD_map_range _ nv i hi
  have hA2 := dist_uno_mil_mem (g (2 * i))
  have hB2 := dist_uno_mil_mem (g (2 * i + 1))
  have hpow : (2 : Int) ^ 31 = 2147483648 := by norm_num
  have hpar := escribeSuma_perm_range (generaArreglos nv g).1 (generaArreglos nv g).2
      (List.replicate nv 0) nv sched hs
  rw [hsum, hA, hB]
  refine ⟨⟨by omega, by omega⟩, hpar, by rw [hpow]; omega, by rw [hpow]; omega⟩

/-- Concrete instance of claim C9 at `nv = 1`, the zero entropy stream. -/
theorem C9_resultados_en_rango_witness :
    (2 ≤ (sumaSecuencial 1 (generaArreglos 1 (fun _ => 0)).1
          (generaArreglos 1 (fun _ => 0)).2 (List.replicate 1 0)).getD 0 0
      ∧ (sumaSecuencial 1 (generaArreglos 1 (fun _ => 0)).1
          (generaArreglos 1 (fun _ => 0)).2 (List.replicate 1 0)).getD 0 0 ≤ 2000)
    ∧ escribeSuma (generaArreglos 1 (fun _ => 0)).1 (generaArreglos 1 (fun _ => 0)).2
        [0] (List.replicate 1 0)
        = sumaSecuencial 1 (generaArreglos 1 (fun _ => 0)).1
            (generaArreglos 1 (fun _ => 0)).2 (List.replicate 1 0)
    ∧ -((2 : Int) ^ 31) ≤ (sumaSecuencial 1 (generaArreglos 1 (fun _ => 0)).1
          (generaArreglos 1 (fun _ => 0)).2 (List.replicate 1 0)).getD 0 0
    ∧ (sumaSecuencial 1 (generaArreglos 1 (fun _ => 0)).1
          (generaArreglos 1 (fun _ => 0)).2 (List.replicate 1 0)).getD 0 0 < (2 : Int) ^ 31 :=
  C9_resultados_en_rango 1 (fun _ => 0) 0 [0] (by decide) (by decide)

/-- Claim C10: with arrays of the program's lengths, every array access of
the summation loops, the verification loop and the printing routine is in
bounds: the checked embeddings (whose out-of-bounds branch is `none`) all
succeed and compute exactly what the total embeddings compute. -/
theorem C10_accesos_en_rango (A B C0 Cseq Cpar d : List Int) (nv : Nat)
    (L : List Nat) (nombre : String)
    (hA : A.length = nv) (hB : B.length = nv) (hC : C0.length = nv)
    (hL : ∀ i ∈ L, i < nv)
    (hseq : Cseq.length = nv) (hpar : Cpar.length = nv)
    (hd : mostrar ≤ d.length) :
    escribeSuma? A B (List.range nv) C0 = some (sumaSecuencial nv A B C0)
    ∧ escribeSuma? A B L C0 = some (escribeSuma A B L C0)
    ∧ verificaDesde? Cseq Cpar 0 nv = some (verifica Cseq Cpar nv)
    ∧ imprimeArreglo? d nombre = some (imprimeArreglo d nombre) := by
  refine ⟨?_, ?_, ?_, ?_⟩
  · refine escribeSuma?_eq_some A B _ C0 (fun i hi => ?_)
    rw [List.mem_range] at hi
    exact ⟨by omega, by omega, by omega⟩
  · refine escribeSuma?_eq_some A B L C0 (fun i hi => ?_)
    have := hL i hi
    exact ⟨by omega, by omega, by omega⟩
  · exact verificaDesde?_eq_some Cseq Cpar nv 0
      (fun k _ hk => ⟨by omega, by omega⟩)
  · have hvals := mapM_getElem?_of_lt d (List.range mostrar)
      (fun x hx => by rw [List.mem_range] at hx; omega)
    simp only [imprimeArreglo?, hvals, Option.bind_eq_bind, Option.some_bind]
    rfl

/-- Concrete instance of claim C10 at length-2 arrays and a length-10 array
for the printing routine. -/
theorem C10_accesos_en_rango_witness :
    escribeSuma? [1, 2] [5, 6] (List.range 2) [0, 0]
      = some (sumaSecuencial 2 [1, 2] [5, 6] [0, 0])
    ∧ escribeSuma? [1, 2] [5, 6] [1, 0] [0, 0] = some (escribeSuma [1, 2] [5, 6] [1, 0] [0, 0])
    ∧ verificaDesde? [1, 2] [1, 3] 0 2 = some (verifica [1, 2] [1, 3] 2)
    ∧ imprimeArreglo? (List.replicate 10 7) "d"
      = some (imprimeArreglo (List.replicate 10 7) "d") :=
  C10_accesos_en_rango [1, 2] [5, 6] [0, 0] [1, 2] [1, 3] (List.replicate 10 7) 2
    [1, 0] "d" rfl rfl rfl (by decide) rfl rfl (by decide)

end SumaArreglos
